import Mathlib

/-
Verification of the purged cache-invalidation dispatcher
(wikimedia/operations-software-purged).

Shallow embedding of the Go sources. Machine integers are modelled as
Nat/Int with explicit wrap-around (% 65536 for uint16) where overflow
matters; Go slices of bytes are List Nat; fallible operations return
Option or an explicit result inductive; a Go run-time panic (slice index
out of range) is an explicit result constructor.
-/

/- ===================== HTCP decoder (multicast.go) ===================== -/

/-- Result of the HTCP decode operation `extractURL`.  `url` carries the
extracted URL bytes, `err` a rejection message, `panik` models a Go
run-time panic from a slice expression whose bounds are out of range. -/
inductive ExtractResult where
  | url (bytes : List Nat)
  | err (msg : String)
  | panik
deriving Repr, DecidableEq

/-- Per-packet htcp_packets_total metric outcome: `good`, `bad`, or no
increment at all (when the code panics before reaching a counter). -/
inductive HtcpMetric where
  | good
  | bad
  | none
deriving Repr, DecidableEq

/-- Truncation to Go uint16: arithmetic on the `offset` variable of
`extractURL` is 16-bit and wraps. -/
def u16 (x : Nat) : Nat := x % 65536

/-- Big-endian 16-bit read `binary.BigEndian.Uint16(buffer[i:i+2])`.
Callers establish `i + 2 ≤ b.length` before use (otherwise the Go slice
expression panics first, which the model returns as `panik`). -/
def be16 (b : List Nat) (i : Nat) : Nat := b.getD i 0 * 256 + b.getD (i + 1) 0

/-- Minimum HTCP packet length accepted (the constant `minHTCPLen`). -/
def minHTCPLen : Nat := 20

/-- The `extractURL(buffer []byte, n int)` function of multicast.go.
`buffer = none` models a nil slice.  Every Go slice expression
`buffer[lo:hi]` is guarded by `lo ≤ hi ∧ hi ≤ b.length` (len = cap for
this buffer); a violated guard is a run-time panic, returned as `panik`.
The uint16 `offset` arithmetic wraps modulo 65536 exactly as in Go.
The second component is the htcp_packets_total increment performed. -/
def extractURL (buffer : Option (List Nat)) (n : Nat) : ExtractResult × HtcpMetric :=
  match buffer with
  | Option.none => (ExtractResult.err "Rejecting HTCP packet, buffer is nil", HtcpMetric.bad)
  | Option.some b =>
    if n < minHTCPLen then
      (ExtractResult.err "Rejecting HTCP packet, size smaller than 20", HtcpMetric.bad)
    else
      -- buffer[6]: panics when the buffer has fewer than 7 bytes
      match b[6]? with
      | Option.none => (ExtractResult.panik, HtcpMetric.none)
      | Option.some b6 =>
        if b6 ≠ 4 then
          (ExtractResult.err "Rejecting HTCP packet, no CLR opcode", HtcpMetric.bad)
        else
          -- offset = 14; method_len = BigEndian.Uint16(buffer[14:16])
          if 16 ≤ b.length then
            let method_len := be16 b 14
            -- offset = 16 + method_len (uint16, wraps)
            let o1 := u16 (16 + method_len)
            let hi1 := u16 (o1 + 2)
            if o1 ≤ hi1 ∧ hi1 ≤ b.length then
              let url_len := be16 b o1
              let o2 := u16 (o1 + 2)
              if url_len = 0 then
                (ExtractResult.err "Rejecting HTCP packet, URL len is zero", HtcpMetric.bad)
              else
                let hi2 := u16 (o2 + url_len)
                if o2 ≤ hi2 ∧ hi2 ≤ b.length then
                  (ExtractResult.url ((b.drop o2).take url_len), HtcpMetric.good)
                else (ExtractResult.panik, HtcpMetric.none)
            else (ExtractResult.panik, HtcpMetric.none)
          else (ExtractResult.panik, HtcpMetric.none)

/-- Boolean test that an extract result is a rejection (an error, hence
no URL emission). -/
def ExtractResult.isErr : ExtractResult → Bool
  | ExtractResult.err _ => true
  | _ => false

/- ===================== Purge client (purged.go) ===================== -/

/-- The constant `connectionAttempts = 16` of purged.go. -/
def connectionAttempts : Nat := 16

/-- The constant `sendAttempts = 10` of purged.go. -/
def sendAttempts : Nat := 10

/-- Result of `connOrFatal`: either a live connection identified by the
dial-attempt index that produced it, or process termination via
`log.Fatal`. -/
inductive ConnRes where
  | conn (attempt : Nat)
  | fatal
deriving Repr, DecidableEq

/-- Loop of `connOrFatal` from iteration `i` on, over a dial oracle
(`dial i = true` when the i-th `net.Dial` succeeds).  The second
component is the list of sleeps performed (milliseconds): after each
failed dial the code sleeps `2^i` ms (`math.Pow(2, i)`, exact for
`i < 16`).  Mirrors `for i := 7; i < connectionAttempts; i++`. -/
def connLoop (dial : Nat → Bool) (i : Nat) : ConnRes × List Nat :=
  if _h : i < connectionAttempts then
    if dial i then (ConnRes.conn i, [])
    else
      let r := connLoop dial (i + 1)
      (r.1, 2 ^ i :: r.2)
  else (ConnRes.fatal, [])
termination_by connectionAttempts - i

/-- The `connOrFatal(addr)` routine: the loop starts at `i = 7`. -/
def connOrFatal (dial : Nat → Bool) : ConnRes × List Nat := connLoop dial 7

/-- Outcome of one iteration of the `TCPPurger.Send` retry loop, as seen
by the code: the `Fprintf` write fails, or the `conn.Read` fails (the
bytes it deposited in the buffer before failing, if any, are `data`),
or the read succeeds returning `data`. -/
inductive Outcome where
  | writeFail
  | readFail (data : List Nat)
  | readOk (data : List Nat)
deriving Repr, DecidableEq

/-- Every outcome except a successful read is an attempt failure
(followed in the code by a reconnect). -/
def Outcome.isFail : Outcome → Bool
  | Outcome.readOk _ => false
  | _ => true

/-- Effect of `conn.Read(buffer)` delivering `data`: the first
`min (data.length) (buf.length)` bytes of the buffer are overwritten,
the rest keep their previous contents. -/
def writeBuf (buf data : List Nat) : List Nat :=
  data.take buf.length ++ buf.drop (data.take buf.length).length

/-- Buffer contents after one loop iteration with the given outcome
(a failed write does not touch the read buffer; a read deposits its
bytes whether or not it then reports an error). -/
def bufAfter (buf : List Nat) : Outcome → List Nat
  | Outcome.writeFail => buf
  | Outcome.readFail d => writeBuf buf d
  | Outcome.readOk d => writeBuf buf d

/-- Buffer contents after skipping `m` failed iterations starting at
attempt index `i`, beginning from buffer `buf`. -/
def bufSkip (att : Nat → Outcome) (buf : List Nat) (i : Nat) : Nat → List Nat
  | 0 => buf
  | m + 1 => bufSkip att (bufAfter buf (att i)) (i + 1) m

/-- Return value of `TCPPurger.Send`: a 3-byte status with nil error, or
an error value (Go `("", errors.New msg)`). -/
inductive SendRes where
  | ok (status : List Nat)
  | err (msg : String)
deriving Repr, DecidableEq

/-- Observable outcome of a whole `TCPPurger.Send` call: its return
value, the number of request+response cycles executed (loop iterations
entered), and the number of connection replacements performed. -/
structure SendOut where
  res : SendRes
  cycles : Nat
  reconnects : Nat
deriving Repr, DecidableEq

/-- Failure message built after exhausting all attempts, from
`fmt.Sprintf` with arguments uri, host, sendAttempts. -/
def failMsg (host uri : String) : String :=
  "Failed purging " ++ uri ++ " (Host: " ++ host ++ ") after 10 attempts"

/-- Retry loop of `TCPPurger.Send` from iteration `i`, with current
read buffer `buf`.  A write failure increments the tcp-error metric,
reconnects, and continues; a read failure does the same (after the read
deposited its partial data in the buffer); a successful read returns
the bytes `buffer[9:12]` with nil error. -/
def sendLoop (att : Nat → Outcome) (host uri : String) (buf : List Nat) (i : Nat) : SendOut :=
  if _h : i < sendAttempts then
    match att i with
    | Outcome.writeFail =>
      let r := sendLoop att host uri buf (i + 1)
      ⟨r.res, r.cycles + 1, r.reconnects + 1⟩
    | Outcome.readFail d =>
      let r := sendLoop att host uri (writeBuf buf d) (i + 1)
      ⟨r.res, r.cycles + 1, r.reconnects + 1⟩
    | Outcome.readOk d =>
      ⟨SendRes.ok (((writeBuf buf d).drop 9).take 3), 1, 0⟩
  else ⟨SendRes.err (failMsg host uri), 0, 0⟩
termination_by sendAttempts - i

/-- The `TCPPurger.Send(host, uri)` method: allocates a fresh 4096-byte
zeroed buffer and runs the attempt loop from 0. -/
def TCPPurger.Send (att : Nat → Outcome) (host uri : String) : SendOut :=
  sendLoop att host uri (List.replicate 4096 0) 0

/- ===================== Backend worker (purged.go) ===================== -/

/-- Parsed URL as used by the workers: the `url.Parse` output restricted
to the two projections the workers consume (Host and RequestURI). -/
structure URLm where
  host : String
  requestURI : String
deriving Repr, DecidableEq

/-- A deferred frontend handoff created by `time.AfterFunc`: the parsed
URL to enqueue and the earliest wall-clock instant (ms) at which the
timer fires. -/
structure Sched where
  url : URLm
  fireAt : Nat
deriving Repr, DecidableEq

/-- Observable events of one iteration of the `backendWorker` loop. -/
inductive BWEvent where
  | parseError
  | hostFiltered
  | sendLogged (errMsg : String)
  | metricInc (status : String)
  | schedule (u : URLm) (fireAt : Nat)
deriving Repr, DecidableEq

/-- Host filter `re != nil && !re.Match(host)` (inverted: `true` when the
URL passes).  `Option.none` models a nil regexp (no filtering). -/
def hostPass (re : Option (String → Bool)) (host : String) : Bool :=
  match re with
  | Option.none => true
  | Option.some f => f host

/-- The `delayedPurge` callback: when the timer fires it performs a
channel send of `toPurge`, appending the URL to the frontend channel. -/
def delayedPurge (chout : List URLm) (toPurge : URLm) : List URLm :=
  chout ++ [toPurge]

/-- One iteration of the `backendWorker` loop on raw URL `raw`.
`parse` is `url.Parse` (none = parse error), `send` is
`backend.Send(host, requestURI)` returning (status, error), `tAfter`
is the wall-clock instant (ms) at which `time.AfterFunc` is invoked
(immediately after `Send` returns), `delay` is `*frontendDelay`, and
`chout` is the current contents of the frontend channel.  Returns the
events of the iteration and the frontend channel as left by the worker
itself (the scheduled timer, not the worker, performs the enqueue). -/
def backendStep (re : Option (String → Bool)) (delay : Nat)
    (parse : String → Option URLm) (send : URLm → String × Option String)
    (tAfter : Nat) (raw : String) (chout : List URLm) :
    List BWEvent × List URLm :=
  match parse raw with
  | Option.none => ([BWEvent.parseError], chout)
  | Option.some u =>
    if hostPass re u.host = false then ([BWEvent.hostFiltered], chout)
    else
      let s := send u
      ((match s.2 with
        | Option.some m => [BWEvent.sendLogged m]
        | Option.none => []) ++
       [BWEvent.metricInc s.1, BWEvent.schedule u (tAfter + delay)], chout)

/-- Deferred handoffs created by a list of worker events. -/
def schedulesOf (evs : List BWEvent) : List Sched :=
  evs.filterMap (fun e =>
    match e with
    | BWEvent.schedule u f => Option.some ⟨u, f⟩
    | _ => Option.none)

/- ===================== Event decoder (event.go) ===================== -/

/-- A parsed JSON value, the input to the typed unmarshalling performed
by `json.Unmarshal` in `NewResourceChangeFromJSON`.  A syntactically
invalid payload is modelled upstream as the absence of such a value. -/
inductive Json where
  | null
  | boolv (b : Bool)
  | num (n : Int)
  | str (s : String)
  | arr (xs : List Json)
  | obj (fields : List (String × Json))

/-- Object-field lookup as `encoding/json` performs it: fields are
decoded in order, so on duplicate keys the last occurrence wins. -/
def jlookup (fs : List (String × Json)) (k : String) : Option Json :=
  fs.foldl (fun acc f => if f.1 = k then Option.some f.2 else acc) Option.none

/-- Timestamps are integers (nanoseconds since the epoch); the zero
value of Go `time.Time` (an unset field) is modelled as 0. -/
def zeroTime : Int := 0

/-- The `RcTime.UnmarshalJSON` method.  It strips the first and last
byte of the raw value and runs `time.Parse(time.RFC3339, ·)`; on any
parse failure it logs and stores `time.Now()` instead, and it NEVER
returns an error.  For a JSON string the stripped raw bytes are the
string contents; for any non-string JSON value the stripped bytes can
never parse as RFC 3339, so the result is `now`.  `parse` is the
`time.Parse(time.RFC3339, ·)` oracle (none = parse failure). -/
def rcTimeFromJson (parse : String → Option Int) (now : Int) : Json → Int
  | Json.str s => (parse s).getD now
  | _ => now

/-- The fields of `RcEvent` (`meta`): `dt` via `RcTime`, `uri *string`. -/
structure RcEventL where
  dt : Int
  uri : Option String
deriving Repr, DecidableEq

/-- The `RcRootEvent` struct: only its `dt` field is ingested. -/
structure RcRootEventL where
  dt : Int
deriving Repr, DecidableEq

/-- The `ResourceChange` struct of event.go. -/
structure ResourceChange where
  event : RcEventL
  rootEvent : Option RcRootEventL
  tags : List String
deriving Repr, DecidableEq

/-- Unmarshal a JSON value into `RcEvent`.  A JSON null leaves the zero
value; a non-object, or a `uri` field that is neither a string nor
null, is a type error (`Option.none`).  A missing `dt` leaves the zero
time; any present `dt` goes through `RcTime.UnmarshalJSON`, which never
fails. -/
def rcEventFromJson (parse : String → Option Int) (now : Int) : Json → Option RcEventL
  | Json.null => Option.some ⟨zeroTime, Option.none⟩
  | Json.obj fs =>
    let dt := match jlookup fs "dt" with
      | Option.none => zeroTime
      | Option.some v => rcTimeFromJson parse now v
    (match jlookup fs "uri" with
     | Option.none => Option.some ⟨dt, Option.none⟩
     | Option.some Json.null => Option.some ⟨dt, Option.none⟩
     | Option.some (Json.str s) => Option.some ⟨dt, Option.some s⟩
     | Option.some _ => Option.none)
  | _ => Option.none

/-- Unmarshal a (non-null) JSON value into `RcRootEvent`.  An object
always succeeds (its `dt` goes through `RcTime.UnmarshalJSON`); any
other value is a type error. -/
def rcRootEventFromJson (parse : String → Option Int) (now : Int) : Json → Option RcRootEventL
  | Json.obj fs =>
    Option.some ⟨match jlookup fs "dt" with
      | Option.none => zeroTime
      | Option.some v => rcTimeFromJson parse now v⟩
  | _ => Option.none

/-- Unmarshal the `tags` field (`[]string`): an array whose elements are
strings (a null element leaves the zero string); anything else is a
type error. -/
def tagsFromJson : Json → Option (List String)
  | Json.null => Option.some []
  | Json.arr xs =>
    xs.mapM (fun v =>
      match v with
      | Json.str s => Option.some s
      | Json.null => Option.some ""
      | _ => Option.none)
  | _ => Option.none

/-- Decoding of the `meta` field of a `ResourceChange` object: a missing
field leaves the zero `RcEvent`; a present one is unmarshalled. -/
def metaPart (parse : String → Option Int) (now : Int)
    (fs : List (String × Json)) : Option RcEventL :=
  match jlookup fs "meta" with
  | Option.none => Option.some ⟨zeroTime, Option.none⟩
  | Option.some v => rcEventFromJson parse now v

/-- Decoding of the `root_event` field (`*RcRootEvent`): missing or null
leaves a nil pointer; a present value must unmarshal as `RcRootEvent`. -/
def rootPart (parse : String → Option Int) (now : Int)
    (fs : List (String × Json)) : Option (Option RcRootEventL) :=
  match jlookup fs "root_event" with
  | Option.none => Option.some Option.none
  | Option.some Json.null => Option.some Option.none
  | Option.some v => (rcRootEventFromJson parse now v).map Option.some

/-- Decoding of the `tags` field (`[]string`): missing leaves nil. -/
def tagsPart (fs : List (String × Json)) : Option (List String) :=
  match jlookup fs "tags" with
  | Option.none => Option.some []
  | Option.some v => tagsFromJson v

/-- `json.Unmarshal` of a parsed JSON value into `ResourceChange`:
`meta` into `RcEvent`, `root_event` into `*RcRootEvent` (null or absent
leaves nil), `tags` into `[]string`.  A missing field leaves the zero
value; a type mismatch anywhere makes the whole unmarshal fail. -/
def unmarshalResourceChange (parse : String → Option Int) (now : Int) :
    Json → Option ResourceChange
  | Json.null => Option.some ⟨⟨zeroTime, Option.none⟩, Option.none, []⟩
  | Json.obj fs =>
    (metaPart parse now fs).bind fun ev =>
      (rootPart parse now fs).bind fun re =>
        (tagsPart fs).bind fun tags => Option.some ⟨ev, re, tags⟩
  | _ => Option.none

/-- The `NewResourceChangeFromJSON` constructor: `data = none` models a
payload `json.Unmarshal` rejects as invalid JSON; after a successful
unmarshal, an object without a URL (`rc.Event.URI == nil`) is rejected
with an error. -/
def NewResourceChangeFromJSON (parse : String → Option Int) (now : Int)
    (data : Option Json) : Option ResourceChange :=
  match data with
  | Option.none => Option.none
  | Option.some j =>
    match unmarshalResourceChange parse now j with
    | Option.none => Option.none
    | Option.some rc =>
      match rc.event.uri with
      | Option.none => Option.none
      | Option.some _ => Option.some rc

/-- The `GetURL` method: the URI of the `meta` event. -/
def ResourceChange.GetURL (rc : ResourceChange) : Option String := rc.event.uri

/-- The `GetTS` method: the root event's time when present, else the
time of the event itself. -/
def ResourceChange.GetTS (rc : ResourceChange) : Int :=
  match rc.rootEvent with
  | Option.none => rc.event.dt
  | Option.some r => r.dt

/-- Acceptable shapes of the `meta.uri` field for the typed unmarshal:
absent, JSON null, or a JSON string.  Any other shape is a type error.
Used to state that unmarshalling `meta` fails only because of its `uri`
field — never because of `dt`. -/
def uriFieldOk : Option Json → Bool
  | Option.none => true
  | Option.some Json.null => true
  | Option.some (Json.str _) => true
  | Option.some _ => false

/- ===================== Bus reader (kafka.go) ===================== -/

/-- The `setLag` method on the per-topic `maxts` map (modelled as a
function to `Option Int`): first sighting stores `t`; afterwards the
entry is replaced only when `t.After(maxts[topic])`. -/
def setLag (maxts : String → Option Int) (t : Int) (topic : String) :
    String → Option Int :=
  fun tp =>
    if tp = topic then
      match maxts topic with
      | Option.none => Option.some t
      | Option.some old => if old < t then Option.some t else Option.some old
    else maxts tp

/-- A bus event as dispatched by `manageEvent`: a message (with optional
topic and payload, `Option.none` payload = invalid JSON), a stats
event, or a consumer error. -/
inductive KafkaEvent where
  | message (topic : Option String) (value : Option Json)
  | stats
  | kerror (code : Int) (msg : String)

/-- Topic labelling of a message: the partition's topic when present,
else the placeholder. -/
def topicName (mtopic : Option String) : String :=
  match mtopic with
  | Option.none => "-"
  | Option.some t => t

/-- Tag labelling of a decoded event: its first tag when any. -/
def tagOf (rc : ResourceChange) : String :=
  match rc.tags with
  | [] => ""
  | t :: _ => t

/-- Observable outcome of one `manageEvent` call: the updated lag map,
the URL pushed to the ingress channel (if any), the
events_received_total increment `(tag, status, topic)` (if any), and
the returned `consume` flag. -/
structure MEOut where
  maxts : String → Option Int
  pushed : Option String
  metric : Option (String × String × String)
  consume : Bool

/-- The `manageEvent` method of the KafkaReader (kafka.go).  On a
message: decode; on failure count `discarded`; on success register the
event's timestamp via `setLag` (unconditionally, before any age check),
then, when `MaxAge != 0` and `time.Since(GetTS()) > MaxAge`, drop the
event as `expired`; otherwise push the URL with status `ok`.  Stats
events feed the metrics exporter; an error event logs and stops
consumption.  `now` is the current wall clock, `maxAge` the configured
maximum age (same time unit as the timestamps). -/
def manageEvent (parse : String → Option Int) (now maxAge : Int)
    (maxts : String → Option Int) (ev : KafkaEvent) : MEOut :=
  match ev with
  | KafkaEvent.message mtopic value =>
    let topic := topicName mtopic
    (match NewResourceChangeFromJSON parse now value with
     | Option.none =>
       ⟨maxts, Option.none, Option.some ("", "discarded", topic), true⟩
     | Option.some rc =>
       let maxts2 := setLag maxts rc.GetTS topic
       if maxAge ≠ 0 ∧ now - rc.GetTS > maxAge then
         ⟨maxts2, Option.none, Option.some (tagOf rc, "expired", topic), true⟩
       else
         ⟨maxts2, rc.GetURL, Option.some (tagOf rc, "ok", topic), true⟩)
  | KafkaEvent.stats => ⟨maxts, Option.none, Option.none, true⟩
  | KafkaEvent.kerror _ _ => ⟨maxts, Option.none, Option.none, false⟩

/- ===================== Concrete instances ===================== -/

/-- Sample parse function: one raw URL parses, everything else fails. -/
def parseEx : String → Option URLm :=
  fun s => if s = "x" then Option.some ⟨"h", "/p"⟩ else Option.none

/-- Sample backend Send that always succeeds with status 204. -/
def sendOkEx : URLm → String × Option String := fun _ => ("204", Option.none)

/-- Sample backend Send that always fails. -/
def sendErrEx : URLm → String × Option String :=
  fun _ => ("", Option.some "broken pipe")

/-- Sample lag map holding one topic. -/
def maxtsEx : String → Option Int :=
  fun t => if t = "T" then Option.some 5 else Option.none

/-- Sample RFC 3339 parse oracle accepting a single string. -/
def pEx : String → Option Int :=
  fun s => if s = "2020" then Option.some 100 else Option.none

/-- Sample decoded resource_change payload. -/
def jEx : Json :=
  Json.obj [("meta", Json.obj [("dt", Json.str "2020"), ("uri", Json.str "http://x")])]

/-- Sample HTCP CLR datagram: method length 1 at offset 14, one method
byte, URL length 2 at offset 17, URL bytes 65 66 at offset 19. -/
def bC7Ex : List Nat :=
  [0, 0, 0, 0, 0, 0, 4, 0, 0, 0, 0, 0, 0, 0, 0, 1, 77, 0, 2, 65, 66]

/- ===================== Theorems ===================== -/

/-- Claim C6: for every buffer and length, the HTCP decode operation
returns an error (no URL emitted) and counts the packet as bad whenever
the buffer is nil, or n < 20, or byte 6 of the buffer is present and
differs from 4, or the parse reaches the 16-bit URL-length field
in-bounds and that field is zero. -/
theorem claim_C6 :
    (∀ n, (extractURL Option.none n).1.isErr = true ∧
      (extractURL Option.none n).2 = HtcpMetric.bad)
    ∧ (∀ (b : List Nat) (n : Nat), n < 20 →
      (extractURL (Option.some b) n).1.isErr = true ∧
      (extractURL (Option.some b) n).2 = HtcpMetric.bad)
    ∧ (∀ (b : List Nat) (n v : Nat), ¬ n < 20 → b[6]? = Option.some v → v ≠ 4 →
      (extractURL (Option.some b) n).1.isErr = true ∧
      (extractURL (Option.some b) n).2 = HtcpMetric.bad)
    ∧ (∀ (b : List Nat) (n : Nat), ¬ n < 20 → b[6]? = Option.some 4 →
      16 ≤ b.length → u16 (16 + be16 b 14) + 2 ≤ b.length → b.length ≤ 65535 →
      be16 b (u16 (16 + be16 b 14)) = 0 →
      (extractURL (Option.some b) n).1.isErr = true ∧
      (extractURL (Option.some b) n).2 = HtcpMetric.bad) := by
  refine ⟨fun n => ⟨rfl, rfl⟩, ?_, ?_, ?_⟩
  · intro b n h
    simp [extractURL, minHTCPLen, h, ExtractResult.isErr]
  · intro b n v hn h6 hv
    simp [extractURL, minHTCPLen, hn, h6, hv, ExtractResult.isErr]
  · intro b n hn h6 h16 hsl hlen h0
    have hu : u16 (u16 (16 + be16 b 14) + 2) = u16 (16 + be16 b 14) + 2 :=
      Nat.mod_eq_of_lt (by omega)
    simp [extractURL, minHTCPLen, hn, h6, h16, hu, hsl, h0, ExtractResult.isErr]

/-- Claim C7: a datagram of length n ≥ 20 whose byte 6 is 4, with
big-endian method length m at offset 14 and nonzero big-endian URL
length L at offset 16+m, all fields lying inside the buffer, decodes to
exactly the L bytes at offset 18+m, with no error and a good-packet
count.  (A UDP datagram buffer never exceeds 65535 bytes.) -/
theorem claim_C7 (b : List Nat) (n : Nat) (m L : Nat)
    (hn : 20 ≤ n) (h6 : b[6]? = Option.some 4)
    (hm : m = be16 b 14) (hL : L = be16 b (16 + m)) (hL0 : L ≠ 0)
    (hfit : 18 + m + L ≤ b.length) (hcap : b.length ≤ 65535) :
    extractURL (Option.some b) n =
      (ExtractResult.url ((b.drop (18 + m)).take L), HtcpMetric.good) := by
  subst hm hL
  have h1 : u16 (16 + be16 b 14) = 16 + be16 b 14 := Nat.mod_eq_of_lt (by omega)
  have h2 : u16 (16 + be16 b 14 + 2) = 18 + be16 b 14 := by
    unfold u16; rw [Nat.mod_eq_of_lt (by omega)]; omega
  have h3 : u16 (18 + be16 b 14 + be16 b (16 + be16 b 14)) =
      18 + be16 b 14 + be16 b (16 + be16 b 14) := Nat.mod_eq_of_lt (by omega)
  simp only [extractURL, minHTCPLen]
  rw [if_neg (by omega), h6]
  simp only [h1, h2]
  rw [if_neg (by simp), if_pos (show (16 : Nat) ≤ b.length by omega)]
  rw [if_pos (⟨by omega, by omega⟩ :
    16 + be16 b 14 ≤ 18 + be16 b 14 ∧ 18 + be16 b 14 ≤ b.length)]
  rw [if_neg hL0, h3]
  rw [if_pos (⟨by omega, by omega⟩ :
    18 + be16 b 14 ≤ 18 + be16 b 14 + be16 b (16 + be16 b 14) ∧
      18 + be16 b 14 + be16 b (16 + be16 b 14) ≤ b.length)]

/-- Claim C9: the HTCP decode operation is not total.  There is an
input passing all explicit checks (n ≥ 20, byte 6 equal to 4) whose
method-length field makes `16 + methodLen + 2` exceed the buffer
length, so the slice expression indexes past the end of the buffer and
the operation panics instead of returning an error (and increments no
packet counter). -/
theorem claim_C9 :
    ∃ (b : List Nat) (n : Nat), 20 ≤ n ∧ b[6]? = Option.some 4 ∧
      b.length < 16 + be16 b 14 + 2 ∧
      extractURL (Option.some b) n = (ExtractResult.panik, HtcpMetric.none) := by
  refine ⟨[0, 0, 0, 0, 0, 0, 4, 0, 0, 0, 0, 0, 0, 0, 1, 0, 0, 0, 0, 0], 20, ?_, ?_, ?_, ?_⟩
  · decide
  · decide
  · decide
  · decide

/-- Helper: whenever the raw URL parses and passes the host filter, one
backend-worker iteration creates exactly one deferred handoff, for the
parsed URL, firing `delay` after the `time.AfterFunc` call — whatever
the Send outcome was. -/
theorem backendStep_schedules (re : Option (String → Bool)) (delay : Nat)
    (parse : String → Option URLm) (send : URLm → String × Option String)
    (tAfter : Nat) (raw : String) (u : URLm) (chout : List URLm)
    (hp : parse raw = Option.some u) (hf : hostPass re u.host = true) :
    schedulesOf (backendStep re delay parse send tAfter raw chout).1 =
      [⟨u, tAfter + delay⟩] := by
  simp only [backendStep, hp, hf, Bool.true_eq_false, if_false]
  cases h2 : (send u).2 <;>
    simp [schedulesOf, h2]

/-- Claim C1: a raw URL consumed by a backend worker that parses, passes
the host filter, and whose backend PURGE send succeeds, is scheduled
for the frontend channel exactly once; the timer fires no earlier than
`frontendDelay` ms after `time.AfterFunc` was armed — hence any enqueue
instant `e` is no earlier than `frontendDelay` after the backend
dispatch instant; and the worker iteration itself leaves the frontend
channel untouched and behaves identically whatever that channel
contains (it does not block on the handoff). -/
theorem claim_C1 (re : Option (String → Bool)) (delay : Nat)
    (parse : String → Option URLm) (send : URLm → String × Option String)
    (tDispatch tAfter : Nat) (raw : String) (u : URLm) (chout : List URLm) (e : Nat)
    (hp : parse raw = Option.some u) (hf : hostPass re u.host = true)
    (hs : (send u).2 = Option.none) (ht : tDispatch ≤ tAfter)
    (he : tAfter + delay ≤ e) :
    schedulesOf (backendStep re delay parse send tAfter raw chout).1 =
      [⟨u, tAfter + delay⟩]
    ∧ tDispatch + delay ≤ e
    ∧ (backendStep re delay parse send tAfter raw chout).2 = chout
    ∧ (∀ ch2, (backendStep re delay parse send tAfter raw ch2).1 =
        (backendStep re delay parse send tAfter raw chout).1) := by
  refine ⟨backendStep_schedules re delay parse send tAfter raw u chout hp hf,
    by omega, ?_, ?_⟩
  · simp only [backendStep, hp, hf, Bool.true_eq_false, if_false]
  · intro ch2
    simp only [backendStep, hp, hf, Bool.true_eq_false, if_false]

/-- Claim C10: the deferred frontend handoff is scheduled exactly once
even when the backend Send returns an error, and more generally the
handoffs created by an iteration are the same for every Send outcome:
frontend purging does not depend on the backend PURGE having
succeeded. -/
theorem claim_C10 (re : Option (String → Bool)) (delay : Nat)
    (parse : String → Option URLm) (send : URLm → String × Option String)
    (tAfter : Nat) (raw : String) (u : URLm) (chout : List URLm) (errm : String)
    (hp : parse raw = Option.some u) (hf : hostPass re u.host = true)
    (hs : (send u).2 = Option.some errm) :
    schedulesOf (backendStep re delay parse send tAfter raw chout).1 =
      [⟨u, tAfter + delay⟩]
    ∧ (∀ send2 : URLm → String × Option String,
        schedulesOf (backendStep re delay parse send2 tAfter raw chout).1 =
        schedulesOf (backendStep re delay parse send tAfter raw chout).1) := by
  refine ⟨backendStep_schedules re delay parse send tAfter raw u chout hp hf, ?_⟩
  intro send2
  rw [backendStep_schedules re delay parse send tAfter raw u chout hp hf,
    backendStep_schedules re delay parse send2 tAfter raw u chout hp hf]

/-- Claim C2: the per-topic lag mapping is monotone — `setLag` never
replaces a stored timestamp with an earlier one — and on every
successfully decoded message `manageEvent` updates the topic's
max-seen timestamp via `setLag` unconditionally, whatever the MaxAge
setting and whether or not the event is dispatched. -/
theorem claim_C2 :
    (∀ (maxts : String → Option Int) (t : Int) (topic tp : String) (old : Int),
      maxts tp = Option.some old →
      ∃ w, setLag maxts t topic tp = Option.some w ∧ old ≤ w)
    ∧ (∀ (parse : String → Option Int) (now maxAge : Int)
        (maxts : String → Option Int) (mtopic : Option String)
        (value : Option Json) (rc : ResourceChange),
      NewResourceChangeFromJSON parse now value = Option.some rc →
      (manageEvent parse now maxAge maxts (KafkaEvent.message mtopic value)).maxts =
        setLag maxts rc.GetTS (topicName mtopic)) := by
  constructor
  · intro maxts t topic tp old hold
    unfold setLag
    by_cases htp : tp = topic
    · subst htp
      rw [hold]
      simp only [if_pos rfl]
      by_cases hlt : old < t
      · exact ⟨t, by simp [hlt], by omega⟩
      · exact ⟨old, by simp [hlt], le_refl old⟩
    · exact ⟨old, by rw [if_neg htp, hold], le_refl old⟩
  · intro parse now maxAge maxts mtopic value rc hdec
    simp only [manageEvent, hdec]
    by_cases hexp : maxAge ≠ 0 ∧ now - rc.GetTS > maxAge
    · rw [if_pos hexp]
    · rw [if_neg hexp]

/-- Claim C3: with MaxAge > 0, a successfully decoded message whose
effective timestamp (root event time if present, else the meta event
time, as `GetTS` returns) is older than `now − MaxAge` is not pushed
onto the URL channel, is counted with status expired, and still has its
timestamp passed to the lag update. -/
theorem claim_C3 (parse : String → Option Int) (now maxAge : Int)
    (maxts : String → Option Int) (mtopic : Option String)
    (value : Option Json) (rc : ResourceChange)
    (hdec : NewResourceChangeFromJSON parse now value = Option.some rc)
    (hpos : 0 < maxAge) (hold : maxAge < now - rc.GetTS) :
    (manageEvent parse now maxAge maxts (KafkaEvent.message mtopic value)).pushed =
      Option.none
    ∧ (manageEvent parse now maxAge maxts (KafkaEvent.message mtopic value)).metric =
      Option.some (tagOf rc, "expired", topicName mtopic)
    ∧ (manageEvent parse now maxAge maxts (KafkaEvent.message mtopic value)).maxts =
      setLag maxts rc.GetTS (topicName mtopic)
    ∧ (rc.rootEvent = Option.none → rc.GetTS = rc.event.dt)
    ∧ (∀ r, rc.rootEvent = Option.some r → rc.GetTS = r.dt) := by
  have hexp : maxAge ≠ 0 ∧ now - rc.GetTS > maxAge := ⟨by omega, by omega⟩
  refine ⟨?_, ?_, ?_, ?_, ?_⟩
  · simp only [manageEvent, hdec, if_pos hexp]
  · simp only [manageEvent, hdec, if_pos hexp]
  · simp only [manageEvent, hdec, if_pos hexp]
  · intro hr; simp only [ResourceChange.GetTS, hr]
  · intro r hr; simp only [ResourceChange.GetTS, hr]

/-- Helper: a successful unmarshal of a JSON object determines its
`event` component as the unmarshal of the `meta` field (zero value when
absent). -/
theorem unmarshal_obj_parts (parse : String → Option Int) (now : Int)
    (fs : List (String × Json)) (rc : ResourceChange)
    (h : unmarshalResourceChange parse now (Json.obj fs) = Option.some rc) :
    metaPart parse now fs = Option.some rc.event := by
  simp only [unmarshalResourceChange, Option.bind_eq_some, Option.some.injEq] at h
  obtain ⟨ev, hev, re, hre, tags, htg, hrc⟩ := h
  subst hrc
  exact hev

/-- Helper: a successful decode implies a successful unmarshal of the
same record, with a present URI. -/
theorem NewRC_some_unmarshal (parse : String → Option Int) (now : Int)
    (j : Json) (rc : ResourceChange)
    (h : NewResourceChangeFromJSON parse now (Option.some j) = Option.some rc) :
    unmarshalResourceChange parse now j = Option.some rc := by
  cases hu : unmarshalResourceChange parse now j with
  | none =>
    simp only [NewResourceChangeFromJSON, hu] at h
    exact h
  | some rc2 =>
    simp only [NewResourceChangeFromJSON, hu] at h
    cases huri : rc2.event.uri with
    | none => rw [huri] at h; exact Option.noConfusion h
    | some s =>
      rw [huri] at h
      injection h with h2
      subst h2
      rfl

/-- Claim C8: decoding a resource_change payload returns an error
exactly when the payload fails to unmarshal (invalid JSON, modelled as
an absent parsed value, or a schema type error) or `meta.uri` is
absent; when `meta.uri` is present as a string the decode succeeds and
GetURL returns that string unchanged; and a malformed `meta.dt` or
`root_event.dt` never causes the decode to fail — unmarshalling `meta`
can fail only because of its `uri` field, and an unparsable `dt` string
is replaced by the current wall-clock time. -/
theorem claim_C8 :
    (∀ (parse : String → Option Int) (now : Int),
      NewResourceChangeFromJSON parse now Option.none = Option.none)
    ∧ (∀ (parse : String → Option Int) (now : Int) (j : Json),
      NewResourceChangeFromJSON parse now (Option.some j) = Option.none ↔
        (unmarshalResourceChange parse now j = Option.none ∨
         ∃ rc, unmarshalResourceChange parse now j = Option.some rc ∧
           rc.event.uri = Option.none))
    ∧ (∀ (parse : String → Option Int) (now : Int) (j : Json) (rc : ResourceChange)
        (s : String), unmarshalResourceChange parse now j = Option.some rc →
      rc.event.uri = Option.some s →
      NewResourceChangeFromJSON parse now (Option.some j) = Option.some rc ∧
        rc.GetURL = Option.some s)
    ∧ (∀ (parse : String → Option Int) (now : Int)
        (fs mfs : List (String × Json)) (s : String),
      jlookup fs "meta" = Option.some (Json.obj mfs) →
      jlookup mfs "uri" = Option.some (Json.str s) →
      ∀ rc, NewResourceChangeFromJSON parse now (Option.some (Json.obj fs)) =
          Option.some rc →
        rc.GetURL = Option.some s)
    ∧ (∀ (parse : String → Option Int) (now : Int) (mfs : List (String × Json)),
      (rcEventFromJson parse now (Json.obj mfs)).isSome =
        uriFieldOk (jlookup mfs "uri"))
    ∧ (∀ (parse : String → Option Int) (now : Int) (mfs : List (String × Json))
        (s : String), jlookup mfs "dt" = Option.some (Json.str s) →
      parse s = Option.none →
      ∀ ev, rcEventFromJson parse now (Json.obj mfs) = Option.some ev → ev.dt = now)
    ∧ (∀ (parse : String → Option Int) (now : Int) (rfs : List (String × Json))
        (s : String), jlookup rfs "dt" = Option.some (Json.str s) →
      parse s = Option.none →
      rcRootEventFromJson parse now (Json.obj rfs) = Option.some ⟨now⟩) := by
  refine ⟨fun parse now => rfl, ?_, ?_, ?_, ?_, ?_, ?_⟩
  · intro parse now j
    cases hu : unmarshalResourceChange parse now j with
    | none => simp [NewResourceChangeFromJSON, hu]
    | some rc =>
      cases huri : rc.event.uri with
      | none => simp [NewResourceChangeFromJSON, hu, huri]
      | some s => simp [NewResourceChangeFromJSON, hu, huri]
  · intro parse now j rc s hu huri
    constructor
    · simp only [NewResourceChangeFromJSON, hu, huri]
    · simp only [ResourceChange.GetURL, huri]
  · intro parse now fs mfs s hmeta huri rc hrc
    have hu := NewRC_some_unmarshal parse now (Json.obj fs) rc hrc
    have hev := unmarshal_obj_parts parse now fs rc hu
    simp only [metaPart, hmeta] at hev
    simp only [rcEventFromJson, huri] at hev
    injection hev with hev
    simp only [ResourceChange.GetURL, ← hev]
  · intro parse now mfs
    simp only [rcEventFromJson]
    cases hq : jlookup mfs "uri" with
    | none => simp [uriFieldOk]
    | some v => cases v <;> simp [uriFieldOk]
  · intro parse now mfs s hdt hp ev hev
    simp only [rcEventFromJson, hdt, rcTimeFromJson, hp, Option.getD_none] at hev
    revert hev
    cases hq : jlookup mfs "uri" with
    | none => intro hev; injection hev with hev; rw [← hev]
    | some v =>
      cases v <;> intro hev <;> first
        | (injection hev with hev; rw [← hev])
        | exact Option.noConfusion hev
  · intro parse now rfs s hdt hp
    simp only [rcRootEventFromJson, hdt, rcTimeFromJson, hp, Option.getD_none]

/-- Helper: when the first successful dial is at index `i + n` (inside
the loop bound), the loop returns that connection after sleeping
`2^k` ms for each failed index `k` in `[i, i+n)`. -/
theorem connLoop_found (dial : Nat → Bool) (n : Nat) :
    ∀ i, i + n < connectionAttempts →
    (∀ k, i ≤ k → k < i + n → dial k = false) → dial (i + n) = true →
    connLoop dial i = (ConnRes.conn (i + n), (List.range' i n).map (2 ^ ·)) := by
  induction n with
  | zero =>
    intro i h _ hd
    rw [connLoop, dif_pos (by omega)]
    rw [Nat.add_zero] at hd
    simp [hd]
  | succ n ih =>
    intro i h hf hd
    have hi : i < connectionAttempts := by omega
    have hdi : dial i = false := hf i le_rfl (by omega)
    rw [connLoop, dif_pos hi, hdi]
    have hrec := ih (i + 1) (by omega)
      (fun k hk1 hk2 => hf k (by omega) (by omega))
      (by rw [show i + 1 + n = i + (n + 1) by omega]; exact hd)
    simp only [Bool.false_eq_true, if_false, hrec, List.range'_succ, List.map_cons]
    rw [show i + 1 + n = i + (n + 1) by omega]

/-- Helper: when every dial in `[i, connectionAttempts)` fails, the loop
gives up fatally after sleeping `2^k` ms for each index. -/
theorem connLoop_exhaust (dial : Nat → Bool) (n : Nat) :
    ∀ i, i + n = connectionAttempts →
    (∀ k, i ≤ k → k < connectionAttempts → dial k = false) →
    connLoop dial i = (ConnRes.fatal, (List.range' i n).map (2 ^ ·)) := by
  induction n with
  | zero =>
    intro i h _
    rw [connLoop, dif_neg (by omega)]
    simp
  | succ n ih =>
    intro i h hf
    have hi : i < connectionAttempts := by omega
    have hdi : dial i = false := hf i le_rfl (by omega)
    rw [connLoop, dif_pos hi, hdi]
    have hrec := ih (i + 1) (by omega) (fun k hk1 hk2 => hf k (by omega) hk2)
    simp only [Bool.false_eq_true, if_false, hrec, List.range'_succ, List.map_cons]

/-- Helper: every sleep performed by the loop from index `i ≥ 7` lies
between 2^7 = 128 and 2^15 = 32768 milliseconds. -/
theorem connLoop_sleeps (dial : Nat → Bool) (n : Nat) :
    ∀ i, connectionAttempts - i ≤ n → 7 ≤ i →
    ∀ s ∈ (connLoop dial i).2, 128 ≤ s ∧ s ≤ 32768 := by
  induction n with
  | zero =>
    intro i h _ s hs
    rw [connLoop, dif_neg (by omega)] at hs
    simp at hs
  | succ n ih =>
    intro i h h7 s hs
    by_cases hi : i < connectionAttempts
    · rw [connLoop, dif_pos hi] at hs
      by_cases hd : dial i
      · simp [hd] at hs
      · simp only [hd, Bool.false_eq_true, if_false, List.mem_cons] at hs
        rcases hs with rfl | hs
        · refine ⟨?_, ?_⟩
          · calc (128 : Nat) = 2 ^ 7 := by norm_num
              _ ≤ 2 ^ i := Nat.pow_le_pow_right (by norm_num) h7
          · calc (2 : Nat) ^ i ≤ 2 ^ 15 :=
                Nat.pow_le_pow_right (by norm_num) (by
                  have : i < connectionAttempts := hi
                  simp only [connectionAttempts] at this
                  omega)
              _ = 32768 := by norm_num
        · exact ih (i + 1) (by omega) (by omega) s hs
    · rw [connLoop, dif_neg hi] at hs
      simp at hs

/-- Claim C5: the reconnect routine dials with loop index running from
7 to 15 inclusive; after each failed dial it sleeps 2^i ms; it returns
the first successfully established connection; if all nine attempts
fail it terminates the process fatally after the nine sleeps
128, 256, ..., 32768 ms; and every sleep performed lies between 128 ms
and 32768 ms. -/
theorem claim_C5 (dial : Nat → Bool) :
    (∀ j, 7 ≤ j → j < 16 → (∀ k, 7 ≤ k → k < j → dial k = false) →
      dial j = true →
      connOrFatal dial = (ConnRes.conn j, (List.range' 7 (j - 7)).map (2 ^ ·)))
    ∧ ((∀ k, 7 ≤ k → k < 16 → dial k = false) →
      connOrFatal dial =
        (ConnRes.fatal, [128, 256, 512, 1024, 2048, 4096, 8192, 16384, 32768]))
    ∧ (∀ s ∈ (connOrFatal dial).2, 128 ≤ s ∧ s ≤ 32768) := by
  refine ⟨?_, ?_, ?_⟩
  · intro j h7 h16 hf hd
    have h := connLoop_found dial (j - 7) 7
      (by simp only [connectionAttempts]; omega)
      (fun k hk1 hk2 => hf k hk1 (by omega))
      (by rw [show 7 + (j - 7) = j by omega]; exact hd)
    rw [show 7 + (j - 7) = j by omega] at h
    exact h
  · intro hf
    have h := connLoop_exhaust dial 9 7 (by simp [connectionAttempts])
      (fun k hk1 hk2 => hf k hk1 (by simpa [connectionAttempts] using hk2))
    rw [connOrFatal, h]
    rfl
  · exact connLoop_sleeps dial 16 7 (by simp [connectionAttempts]) le_rfl

/-- Helper: when the first `n` attempts from index `i` fail and attempt
`i + n` reads successfully, the send loop performs `n + 1` cycles,
`n` reconnects, and returns the bytes at offsets 9..12 of the buffer as
it stands after those reads. -/
theorem sendLoop_firstOk (att : Nat → Outcome) (host uri : String) (n : Nat) :
    ∀ i buf d, i + n < sendAttempts →
    (∀ k, i ≤ k → k < i + n → (att k).isFail = true) →
    att (i + n) = Outcome.readOk d →
    sendLoop att host uri buf i =
      ⟨SendRes.ok (((writeBuf (bufSkip att buf i n) d).drop 9).take 3), n + 1, n⟩ := by
  induction n with
  | zero =>
    intro i buf d h _ ha
    rw [Nat.add_zero] at ha
    rw [sendLoop, dif_pos (by omega), ha]
    simp [bufSkip]
  | succ n ih =>
    intro i buf d h hf ha
    have hi : i < sendAttempts := by omega
    have hfi : (att i).isFail = true := hf i le_rfl (by omega)
    have hnext : ∀ k, i + 1 ≤ k → k < i + 1 + n → (att k).isFail = true :=
      fun k hk1 hk2 => hf k (by omega) (by omega)
    have ha2 : att (i + 1 + n) = Outcome.readOk d := by
      rw [show i + 1 + n = i + (n + 1) by omega]; exact ha
    rw [sendLoop, dif_pos hi]
    cases hai : att i with
    | writeFail =>
      have hrec := ih (i + 1) buf d (by omega) hnext ha2
      simp only [hrec, bufSkip, bufAfter, hai]
    | readFail dd =>
      have hrec := ih (i + 1) (writeBuf buf dd) d (by omega) hnext ha2
      simp only [hrec, bufSkip, bufAfter, hai]
    | readOk dd =>
      rw [hai] at hfi
      simp [Outcome.isFail] at hfi

/-- Helper: when every attempt in `[i, sendAttempts)` fails, the send
loop performs the remaining cycles, one reconnect each, and returns the
failure value. -/
theorem sendLoop_exhaust (att : Nat → Outcome) (host uri : String) (n : Nat) :
    ∀ i buf, i + n = sendAttempts →
    (∀ k, i ≤ k → k < sendAttempts → (att k).isFail = true) →
    sendLoop att host uri buf i = ⟨SendRes.err (failMsg host uri), n, n⟩ := by
  induction n with
  | zero =>
    intro i buf h _
    rw [sendLoop, dif_neg (by omega)]
  | succ n ih =>
    intro i buf h hf
    have hi : i < sendAttempts := by omega
    have hfi : (att i).isFail = true := hf i le_rfl (by omega)
    rw [sendLoop, dif_pos hi]
    cases hai : att i with
    | writeFail =>
      have hrec := ih (i + 1) buf (by omega) (fun k hk1 hk2 => hf k (by omega) hk2)
      simp only [hrec]
    | readFail dd =>
      have hrec := ih (i + 1) (writeBuf buf dd) (by omega)
        (fun k hk1 hk2 => hf k (by omega) hk2)
      simp only [hrec]
    | readOk dd =>
      rw [hai] at hfi
      simp [Outcome.isFail] at hfi

/-- Helper: the send loop never performs more cycles than attempts
remain. -/
theorem sendLoop_cycles (att : Nat → Outcome) (host uri : String) (n : Nat) :
    ∀ i buf, sendAttempts - i ≤ n →
    (sendLoop att host uri buf i).cycles ≤ sendAttempts - i := by
  induction n with
  | zero =>
    intro i buf h
    rw [sendLoop, dif_neg (by omega)]
    simp
  | succ n ih =>
    intro i buf h
    by_cases hi : i < sendAttempts
    · rw [sendLoop, dif_pos hi]
      cases att i with
      | writeFail =>
        have := ih (i + 1) buf (by omega)
        simp only []
        omega
      | readFail dd =>
        have := ih (i + 1) (writeBuf buf dd) (by omega)
        simp only []
        omega
      | readOk dd =>
        simp only []
        omega
    · rw [sendLoop, dif_neg hi]
      simp

/-- Claim C4: a `TCPPurger.Send` call performs at most ten
request+response cycles, reconnecting after each failed one; on the
first cycle whose write and read both succeed it returns the three
bytes at offsets 9..12 of the response buffer as the status with nil
error (having reconnected exactly once per preceding failure); after
ten failed cycles it returns an error value that mentions both the URI
and the host. -/
theorem claim_C4 (att : Nat → Outcome) (host uri : String) :
    (TCPPurger.Send att host uri).cycles ≤ 10
    ∧ (∀ n d, n < 10 → (∀ k, k < n → (att k).isFail = true) →
      att n = Outcome.readOk d →
      TCPPurger.Send att host uri =
        ⟨SendRes.ok
          (((writeBuf (bufSkip att (List.replicate 4096 0) 0 n) d).drop 9).take 3),
          n + 1, n⟩)
    ∧ ((∀ k, k < 10 → (att k).isFail = true) →
      TCPPurger.Send att host uri = ⟨SendRes.err (failMsg host uri), 10, 10⟩)
    ∧ (∃ a b, failMsg host uri = a ++ uri ++ b)
    ∧ (∃ a b, failMsg host uri = a ++ host ++ b) := by
  refine ⟨?_, ?_, ?_, ?_, ?_⟩
  · exact sendLoop_cycles att host uri sendAttempts 0 (List.replicate 4096 0)
      (by simp [sendAttempts])
  · intro n d hn hf ha
    exact sendLoop_firstOk att host uri n 0 (List.replicate 4096 0) d
      (by simpa [sendAttempts] using hn)
      (fun k hk1 hk2 => hf k (by omega)) (by simpa using ha)
  · intro hf
    exact sendLoop_exhaust att host uri 10 0 (List.replicate 4096 0)
      (by simp [sendAttempts])
      (fun k hk1 hk2 => hf k (by simpa [sendAttempts] using hk2))
  · refine ⟨"Failed purging ", " (Host: " ++ host ++ ") after 10 attempts", ?_⟩
    simp only [failMsg, String.append_assoc]
  · refine ⟨"Failed purging " ++ uri ++ " (Host: ", ") after 10 attempts", ?_⟩
    simp only [failMsg, String.append_assoc]

/-- Witness for claim C1 at a concrete input: parse succeeds, the filter
is nil, Send succeeds, dispatch at 3 ms, AfterFunc armed at 5 ms, delay
1000 ms, enqueue at 1005 ms. -/
theorem claim_C1_witness :
    schedulesOf (backendStep Option.none 1000 parseEx sendOkEx 5 "x" []).1 =
      [⟨⟨"h", "/p"⟩, 5 + 1000⟩] ∧ 3 + 1000 ≤ 1005 :=
  ⟨(claim_C1 Option.none 1000 parseEx sendOkEx 3 5 "x" ⟨"h", "/p"⟩ [] 1005
      (by decide) (by decide) (by decide) (by decide) (by decide)).1,
   (claim_C1 Option.none 1000 parseEx sendOkEx 3 5 "x" ⟨"h", "/p"⟩ [] 1005
      (by decide) (by decide) (by decide) (by decide) (by decide)).2.1⟩

/-- Witness for claim C10 at a concrete input: Send fails, yet the
handoff is scheduled exactly once. -/
theorem claim_C10_witness :
    schedulesOf (backendStep Option.none 1000 parseEx sendErrEx 5 "x" []).1 =
      [⟨⟨"h", "/p"⟩, 5 + 1000⟩] :=
  (claim_C10 Option.none 1000 parseEx sendErrEx 5 "x" ⟨"h", "/p"⟩ [] "broken pipe"
      (by decide) (by decide) (by decide)).1

/-- Witness for claim C3 at a concrete input: an event with effective
timestamp 100, now 300, MaxAge 50, is expired and not pushed. -/
theorem claim_C3_witness :
    (manageEvent pEx 300 50 maxtsEx
        (KafkaEvent.message (Option.some "T") (Option.some jEx))).pushed =
      Option.none
    ∧ (manageEvent pEx 300 50 maxtsEx
        (KafkaEvent.message (Option.some "T") (Option.some jEx))).metric =
      Option.some ("", "expired", "T") :=
  ⟨(claim_C3 pEx 300 50 maxtsEx (Option.some "T") (Option.some jEx)
      ⟨⟨100, Option.some "http://x"⟩, Option.none, []⟩
      (by decide) (by decide) (by decide)).1,
   (claim_C3 pEx 300 50 maxtsEx (Option.some "T") (Option.some jEx)
      ⟨⟨100, Option.some "http://x"⟩, Option.none, []⟩
      (by decide) (by decide) (by decide)).2.1⟩

/-- Witness for claim C7 at a concrete datagram: the URL bytes 65 66
are extracted with a good-packet count. -/
theorem claim_C7_witness :
    extractURL (Option.some bC7Ex) 20 =
      (ExtractResult.url [65, 66], HtcpMetric.good) := by
  have h := claim_C7 bC7Ex 20 1 2 (by decide) (by decide) (by decide) (by decide)
    (by decide) (by decide) (by decide)
  rw [h]
  rfl
